import Mathlib

/-!
Verification of the Document Attribution & Extraction Engine
(`backend/app/llm_parser.py`) against its specification.

Strings are modelled as `List Char` (`Str`); Python string operations
(`strip`, `rstrip`, `split`, `rfind`, `re.sub` with the concrete patterns
used by the source) are embedded as executable Lean functions.  Character
classes follow the ASCII behaviour of the Python originals.
-/

namespace QE

/-- Strings are lists of characters. -/
abbrev Str := List Char

/-- Convert a Lean string literal to the `Str` model. -/
def str (s : String) : Str := s.toList

/-- Whitespace characters recognised by Python `str.strip` / `\s` (ASCII range). -/
def isWS (c : Char) : Bool :=
  c = ' ' || c = '\t' || c = '\n' || c = '\r' || c = '\x0b' || c = '\x0c'

/-- Python `str.lstrip()`. -/
def lstrip (s : Str) : Str := s.dropWhile isWS

/-- Python `str.rstrip()`. -/
def rstrip (s : Str) : Str := (s.reverse.dropWhile isWS).reverse

/-- Python `str.strip()`. -/
def pstrip (s : Str) : Str := lstrip (rstrip s)

/-- Python `str.lower()` (ASCII). -/
def lower (s : Str) : Str := s.map Char.toLower

/-- A cased character (ASCII): letter. -/
def isCased (c : Char) : Bool := c.isUpper || c.isLower

/-- Python `str.isupper()`: at least one cased character and no lowercase one (ASCII). -/
def pyIsUpper (s : Str) : Bool := s.any isCased && !(s.any Char.isLower)

/-- Python `text.split("\n")` (keeps empty pieces, `"" ↦ [""]`). -/
def splitOnNl (s : Str) : List Str :=
  match s with
  | [] => [[]]
  | c :: rest =>
    let r := splitOnNl rest
    if c = '\n' then [] :: r
    else
      match r with
      | [] => [[c]]
      | h :: t => (c :: h) :: t

/-- Python `"\n".join(parts)`. -/
def joinNl : List Str → Str
  | [] => []
  | [x] => x
  | x :: y :: t => x ++ '\n' :: joinNl (y :: t)

/-- Collapse runs of newlines to a single newline (`re.sub(r"\n+", "\n", s)`);
the flag records whether the previous kept character was a newline. -/
def collapseNlGo : Bool → Str → Str
  | _, [] => []
  | prevNl, c :: rest =>
    if c = '\n' then
      if prevNl then collapseNlGo true rest
      else '\n' :: collapseNlGo true rest
    else c :: collapseNlGo false rest

/-- `_clean_text`: CR→LF, collapse newline runs, strip. -/
def cleanText (s : Str) : Str :=
  pstrip (collapseNlGo false (s.map (fun c => if c = '\r' then '\n' else c)))

/-- Does the regex `^\([^)]+\)\s+` match the line?  (country-label prefix). -/
def countryMatch (s : Str) : Bool :=
  match s with
  | '(' :: rest =>
    let a := rest.takeWhile (fun c => c ≠ ')')
    match rest.drop a.length with
    | ')' :: c :: _ => !a.isEmpty && isWS c
    | _ => false
  | _ => false

/-- A strong boundary line of `_split_into_sections` (applied to a raw line). -/
def strongLine (raw : Str) : Bool :=
  let line := rstrip raw
  !line.isEmpty && (countryMatch line || (pyIsUpper line && decide (4 ≤ line.length)))

/-- Fixed-size slicing `blob[i:i+maxChars]` for `i = 0, maxChars, …` (fuel-driven;
`fuel = blob.length` suffices when `0 < k`). -/
def chunksGo (k : Nat) : Nat → Str → List Str
  | 0, _ => []
  | _, [] => []
  | fuel + 1, s => s.take k :: chunksGo k fuel (s.drop k)

/-- All `maxChars`-sized consecutive slices of `blob`. -/
def chunks (blob : Str) (k : Nat) : List Str := chunksGo k blob.length blob

/-- The sections emitted for one completed accumulation `current`
(the body of `push_current` in `_split_into_sections`). -/
def emittedFor (maxChars : Nat) (current : List Str) : List Str :=
  if current.isEmpty then []
  else
    let blob := cleanText (joinNl current)
    if blob.isEmpty then []
    else if blob.length ≤ maxChars then [blob]
    else chunks blob maxChars

/-- `push_current`: append the sections of the completed accumulation. -/
def pushCurrent (maxChars : Nat) (sections : List Str) (current : List Str) : List Str :=
  sections ++ emittedFor maxChars current

/-- The line loop of `_split_into_sections` (state: emitted sections, current lines). -/
def splitLoop (maxChars : Nat) : List Str → List Str → List Str → List Str
  | [], sections, current => pushCurrent maxChars sections current
  | raw :: rest, sections, current =>
    if countryMatch (rstrip raw) ||
        (pyIsUpper (rstrip raw) && decide (4 ≤ (rstrip raw).length)) then
      if current.isEmpty then splitLoop maxChars rest sections [rstrip raw]
      else splitLoop maxChars rest (pushCurrent maxChars sections current) [rstrip raw]
    else if (pstrip (rstrip raw)).isEmpty then
      splitLoop maxChars rest (pushCurrent maxChars sections current) []
    else splitLoop maxChars rest sections (current ++ [rstrip raw])

/-- `_split_into_sections(text, max_chars)`. -/
def splitIntoSections (text : Str) (maxChars : Nat) : List Str :=
  if text.isEmpty then []
  else if (splitOnNl text).any strongLine then splitLoop maxChars (splitOnNl text) [] []
  else if (cleanText (joinNl (splitOnNl text))).isEmpty then []
  else [cleanText (joinNl (splitOnNl text))]

/-- `startsWithS pat s`: `pat` is an initial segment of `s`. -/
def startsWithS : Str → Str → Bool
  | [], _ => true
  | _ :: _, [] => false
  | p :: ps, c :: cs => p = c && startsWithS ps cs

/-- Python `s.rfind(pat)` as an optional index (highest start of an occurrence). -/
def rfindPos (pat : Str) (s : Str) : Option Nat :=
  ((List.range (s.length + 1)).filter (fun i => startsWithS pat (s.drop i))).getLast?

/-- Python `s.rfind(c)` for a single character (`-1` when absent). -/
def rfindCharI (c : Char) (s : Str) : Int :=
  match rfindPos [c] s with
  | some i => (i : Int)
  | none => -1

/-- `_safe_truncate_text(text, max_tokens)` (the `0.7` factor is modelled
exactly as the rational `7/10`). -/
def safeTruncate (text : Str) (maxTokens : Nat) : Str :=
  let e := maxTokens * 4
  if text.length ≤ e then text
  else
    let t := text.take e
    let lastPara : Int :=
      match rfindPos (str "\n\n") t with
      | some i => (i : Int)
      | none => -1
    if 10 * lastPara > 7 * (e : Int) then t.take lastPara.toNat
    else
      let lastSentence : Int :=
        max (rfindCharI '.' t) (max (rfindCharI '!' t) (rfindCharI '?' t))
      if 10 * lastSentence > 7 * (e : Int) then t.take (lastSentence.toNat + 1)
      else
        let lastSpace : Int := rfindCharI ' ' t
        if lastSpace > 0 then t.take lastSpace.toNat else t

/-! ### Generic global regex substitution

`reSub f repl s` scans `s` left to right; at each position `f prev suffix`
reports the length of a match of the concrete pattern (given the preceding
original character for word-boundary tests).  A match is replaced by `repl`
and scanning resumes after it, as `re.sub` does. -/

/-- Worker for `reSub` (fuel-driven; each step consumes at least one character). -/
def reSubGo (f : Option Char → Str → Option Nat) (repl : Str) :
    Nat → Option Char → Str → Str
  | 0, _, s => s
  | _ + 1, _, [] => []
  | fuel + 1, prev, c :: rest =>
    match f prev (c :: rest) with
    | some (k + 1) =>
      repl ++ reSubGo f repl fuel (((c :: rest).take (k + 1)).getLast?) ((c :: rest).drop (k + 1))
    | _ => c :: reSubGo f repl fuel (some c) rest

/-- Global substitution of a concrete pattern by `repl`. -/
def reSub (f : Option Char → Str → Option Nat) (repl : Str) (s : Str) : Str :=
  reSubGo f repl s.length none s

/-- Python word character (`\w`, ASCII): letter, digit or underscore. -/
def isWordChar (c : Char) : Bool := c.isAlpha || c.isDigit || c = '_'

/-- Case-insensitive literal prefix test. -/
def startsCI (tok s : Str) : Bool := lower (s.take tok.length) = lower tok

/-- Trailing unit alternative of the capacity pattern
`(?:MWp?|MVA|MWh(?:/\d+h)?|GWh)\b`, in the source's alternation order with
greedy optionals first; returns the matched length. -/
def unitMatch (s : Str) : Option Nat :=
  let bAt : Nat → Bool := fun k =>
    match s.drop k with
    | [] => true
    | c :: _ => !isWordChar c
  let mwp := if startsCI (str "MWp") s && bAt 3 then some 3 else none
  let mw := if startsCI (str "MW") s && bAt 2 then some 2 else none
  let mva := if startsCI (str "MVA") s && bAt 3 then some 3 else none
  let mwhSlash :=
    if startsCI (str "MWh") s then
      match s.drop 3 with
      | '/' :: r =>
        let d := r.takeWhile Char.isDigit
        if !d.isEmpty && startsCI (str "h") (r.drop d.length) && bAt (5 + d.length) then
          some (5 + d.length)
        else none
      | _ => none
    else none
  let mwh := if startsCI (str "MWh") s && bAt 3 then some 3 else none
  let gwh := if startsCI (str "GWh") s && bAt 3 then some 3 else none
  mwp <|> mw <|> mva <|> mwhSlash <|> mwh <|> gwh

/-- Matcher for `\b\d+(?:[.,]\d+)?\s*(?:MWp?|MVA|MWh(?:/\d+h)?|GWh)\b` (IGNORECASE). -/
def capMatch (prev : Option Char) (s : Str) : Option Nat :=
  let bOK :=
    match prev with
    | none => true
    | some p => !isWordChar p
  if !bOK then none
  else
    let d := s.takeWhile Char.isDigit
    if d.isEmpty then none
    else
      let s1 := s.drop d.length
      let fracLen :=
        match s1 with
        | c :: r =>
          if c = '.' || c = ',' then
            let d2 := r.takeWhile Char.isDigit
            if d2.isEmpty then 0 else d2.length + 1
          else 0
        | [] => 0
      let s2 := s1.drop fracLen
      let w := s2.takeWhile isWS
      match unitMatch (s2.drop w.length) with
      | some u => some (d.length + fracLen + w.length + u)
      | none => none

/-- Matcher for `\s*\([^)]*\)`. -/
def parensMatch (_prev : Option Char) (s : Str) : Option Nat :=
  let w := s.takeWhile isWS
  match s.drop w.length with
  | '(' :: r =>
    let a := r.takeWhile (fun c => c ≠ ')')
    match r.drop a.length with
    | ')' :: _ => some (w.length + a.length + 2)
    | _ => none
  | _ => none

/-- Matcher for `\b[A-Z0-9]{6,}\b` (no IGNORECASE). -/
def idMatch (prev : Option Char) (s : Str) : Option Nat :=
  let bOK :=
    match prev with
    | none => true
    | some p => !isWordChar p
  let cls : Char → Bool := fun c => c.isUpper || c.isDigit
  let run := s.takeWhile cls
  let bAfter :=
    match s.drop run.length with
    | [] => true
    | c :: _ => !isWordChar c
  if bOK && decide (6 ≤ run.length) && bAfter then some run.length else none

/-- Matcher for `[_\-]+`. -/
def sepMatch (_prev : Option Char) (s : Str) : Option Nat :=
  let run := s.takeWhile (fun c => c = '_' || c = '-')
  if run.isEmpty then none else some run.length

/-- Matcher for `\s+`. -/
def wsMatch (_prev : Option Char) (s : Str) : Option Nat :=
  let run := s.takeWhile isWS
  if run.isEmpty then none else some run.length

/-- `re.sub(r"\s+", " ", s)`. -/
def wsCollapse (s : Str) : Str := reSub wsMatch [' '] s

/-- `re.sub(r"^\([^)]+\)\s+", "", s)` — strip a leading country parenthetical. -/
def stripCountry (s : Str) : Str :=
  match s with
  | '(' :: r =>
    let a := r.takeWhile (fun c => c ≠ ')')
    match r.drop a.length with
    | ')' :: rest =>
      if a.isEmpty then s
      else
        let w := rest.takeWhile isWS
        if w.isEmpty then s else rest.drop w.length
    | _ => s
  | _ => s

/-- `_normalize_project_name`. -/
def normalizeProjectName (raw : Str) : Str :=
  let s := pstrip raw
  if s.isEmpty then s
  else
    let s := stripCountry s
    let s := reSub capMatch [] s
    let s := reSub parensMatch [] s
    let s := reSub idMatch [] s
    let s := reSub sepMatch [' '] s
    pstrip (wsCollapse s)

/-! ### `_CONJOIN_RE` and `_expand_conjoined` -/

/-- Leading run of decimal digits. -/
def takeDigits (s : Str) : Str := s.takeWhile Char.isDigit

/-- Skip `\s*`. -/
def dropWS (s : Str) : Str := s.dropWhile isWS

/-- One separator token `(?:\+|&|,|/|and)` (IGNORECASE); returns consumed length. -/
def sepTok (s : Str) : Option Nat :=
  match s with
  | '+' :: _ => some 1
  | '&' :: _ => some 1
  | ',' :: _ => some 1
  | '/' :: _ => some 1
  | _ => if startsCI (str "and") s then some 3 else none

/-- One conjoined-number iteration `\s*(?:\+|&|,|/|and)\s*\d+`; returns the rest. -/
def parseIter (s : Str) : Option Str :=
  let s1 := dropWS s
  match sepTok s1 with
  | none => none
  | some k =>
    let s2 := dropWS (s1.drop k)
    let d := takeDigits s2
    if d.isEmpty then none else some (s2.drop d.length)

/-- `(iteration)+\s*$` with full backtracking over the iteration count
(fuel-driven; an iteration consumes at least one character). -/
def itersOk : Nat → Str → Bool
  | 0, _ => false
  | fuel + 1, s =>
    match parseIter s with
    | none => false
    | some rest => itersOk fuel rest || (dropWS rest).isEmpty

/-- `\s*\d+(iteration)+\s*$` — the tail of `_CONJOIN_RE` after the optional prefix. -/
def conjAfterPfx (s : Str) : Bool :=
  let s2 := dropWS s
  let d := takeDigits s2
  if d.isEmpty then false else itersOk (s.length + 1) (s2.drop d.length)

/-- `\s*(?:PV|Wind|ESS|A|B|C|D)?` then the numeric tail; returns the matched
prefix text (alternatives tried in the source's order, empty last). -/
def conjPfx (s : Str) : Option Str :=
  let s1 := dropWS s
  let tryTok : Str → Option Str := fun tok =>
    if startsCI tok s1 && conjAfterPfx (s1.drop tok.length) then some (s1.take tok.length)
    else none
  tryTok (str "PV") <|> tryTok (str "Wind") <|> tryTok (str "ESS") <|>
    tryTok (str "A") <|> tryTok (str "B") <|> tryTok (str "C") <|> tryTok (str "D") <|>
    (if conjAfterPfx s1 then some [] else none)

/-- Lazy search for the shortest base `(?P<base>.+?)` (no newline) such that the
remainder matches; returns `(base, prefix)` group texts. -/
def conjMatchGo : Str → Str → Option (Str × Str)
  | _, [] => none
  | base, c :: rest =>
    if c = '\n' then none
    else
      match conjPfx rest with
      | some p => some (base ++ [c], p)
      | none => conjMatchGo (base ++ [c]) rest

/-- `_CONJOIN_RE.match(s)`: the `base` and `prefix` groups, if the regex matches. -/
def conjMatch (s : Str) : Option (Str × Str) := conjMatchGo [] s

/-- Worker for `digitRuns` (fuel-driven; each step consumes at least one character). -/
def digitRunsGo : Nat → Str → List Str
  | 0, _ => []
  | _ + 1, [] => []
  | fuel + 1, c :: rest =>
    if c.isDigit then
      let d := takeDigits rest
      (c :: d) :: digitRunsGo fuel (rest.drop d.length)
    else digitRunsGo fuel rest

/-- `re.findall(r"\d+", name)`: maximal digit runs in order. -/
def digitRuns (s : Str) : List Str := digitRunsGo s.length s

/-- Case-insensitive first-occurrence deduplication (the `seen` set holds
lowered names). -/
def dedupCIGo : List Str → List Str → List Str
  | _, [] => []
  | seen, x :: xs =>
    if seen.contains (lower x) then dedupCIGo seen xs
    else x :: dedupCIGo (lower x :: seen) xs

/-- Deduplicate case-insensitively, preserving first occurrences. -/
def dedupCI (l : List Str) : List Str := dedupCIGo [] l

/-- The pre-deduplication expansion list of `_expand_conjoined`. -/
def expandOuts (name : Str) : List Str :=
  match conjMatch (pstrip name) with
  | none => [name]
  | some (b, p) =>
    let base := pstrip b
    let pfx := pstrip p
    (digitRuns name).map (fun n => pstrip (base ++ [' '] ++ pfx ++ n))

/-- `_expand_conjoined`. -/
def expandConjoined (name : Str) : List Str :=
  match conjMatch (pstrip name) with
  | none => [name]
  | some (b, p) =>
    let base := pstrip b
    let pfx := pstrip p
    let outs := (digitRuns name).map (fun n => pstrip (base ++ [' '] ++ pfx ++ n))
    dedupCI outs

/-! ### rapidfuzz: Indel ratio, `token_set_ratio`, `process.extractOne` -/

/-- One row of the longest-common-subsequence table: walks the second string,
carrying the previous row's tail, the diagonal value and the value to the left. -/
def lcsGo (c : Char) : Str → List Nat → Nat → Nat → List Nat
  | [], _, _, _ => []
  | bj :: bs, prevTail, diag, left =>
    let up := prevTail.headD 0
    let cur := if bj = c then diag + 1 else max up left
    cur :: lcsGo c bs prevTail.tail up cur

/-- Length of the longest common subsequence. -/
def lcsLen (a b : Str) : Nat :=
  let init := List.replicate (b.length + 1) 0
  (a.foldl (fun row c => 0 :: lcsGo c b row.tail (row.headD 0) 0) init).getLastD 0

/-- rapidfuzz `Indel.distance`: insertions + deletions only. -/
def indelDist (a b : Str) : Nat := a.length + b.length - 2 * lcsLen a b

/-- Python `s.split()`: whitespace-run tokenisation, no empty tokens
(fuel-driven; each step consumes at least one character). -/
def splitWSGo : Nat → Str → List Str
  | 0, _ => []
  | fuel + 1, s =>
    let s1 := s.dropWhile isWS
    match s1 with
    | [] => []
    | _ =>
      let tok := s1.takeWhile (fun c => !isWS c)
      tok :: splitWSGo fuel (s1.drop tok.length)

/-- Python `s.split()`. -/
def splitWS (s : Str) : List Str := splitWSGo (s.length + 1) s

/-- First-occurrence deduplication (models building a `set` whose iteration
order is irrelevant to every use below). -/
def dedupEqGo : List Str → List Str → List Str
  | _, [] => []
  | seen, x :: xs =>
    if seen.contains x then dedupEqGo seen xs else x :: dedupEqGo (x :: seen) xs

/-- Deduplicate, preserving first occurrences. -/
def dedupEq (l : List Str) : List Str := dedupEqGo [] l

/-- Lexicographic order on strings by code point (Python `sorted`). -/
def lexLe : Str → Str → Bool
  | [], _ => true
  | _ :: _, [] => false
  | a :: as, b :: bs => if a = b then lexLe as bs else decide (a < b)

/-- Ordered insertion for `sortLex`. -/
def insertLe (x : Str) : List Str → List Str
  | [] => [x]
  | y :: ys => if lexLe x y then x :: y :: ys else y :: insertLe x ys

/-- Sort strings lexicographically (Python `sorted`). -/
def sortLex (l : List Str) : List Str := l.foldr insertLe []

/-- Python `" ".join(parts)`. -/
def joinSpace : List Str → Str
  | [] => []
  | [x] => x
  | x :: y :: t => x ++ ' ' :: joinSpace (y :: t)

/-- rapidfuzz `fuzz.token_set_ratio` (pure-Python reference algorithm),
as an exact rational in `[0, 100]`. -/
def tokenSetRatio (s1 s2 : Str) : ℚ :=
  let ta := dedupEq (splitWS s1)
  let tb := dedupEq (splitWS s2)
  if ta.isEmpty || tb.isEmpty then 0
  else
    let inter := ta.filter (fun t => tb.contains t)
    let dab := ta.filter (fun t => !tb.contains t)
    let dba := tb.filter (fun t => !ta.contains t)
    if !inter.isEmpty && (dab.isEmpty || dba.isEmpty) then 100
    else
      let abJ := joinSpace (sortLex dab)
      let baJ := joinSpace (sortLex dba)
      let abLen := abJ.length
      let baLen := baJ.length
      let sectLen := (joinSpace inter).length
      let one : Nat := if sectLen = 0 then 0 else 1
      let sectAbLen := sectLen + one + abLen
      let sectBaLen := sectLen + one + baLen
      let totalLen := sectAbLen + sectBaLen
      let result : ℚ := 100 - 100 * (indelDist abJ baJ : ℚ) / (totalLen : ℚ)
      if sectLen = 0 then result
      else
        let sectAbRatio : ℚ := 100 - 100 * ((one + abLen : Nat) : ℚ) / ((sectLen + sectAbLen : Nat) : ℚ)
        let sectBaRatio : ℚ := 100 - 100 * ((one + baLen : Nat) : ℚ) / ((sectLen + sectBaLen : Nat) : ℚ)
        max result (max sectAbRatio sectBaRatio)

/-- rapidfuzz `process.extractOne(query, choices, scorer=token_set_ratio)`:
best (first on ties) choice and its score; `none` for empty choices. -/
def extractOne (query : Str) (choices : List Str) : Option (Str × ℚ) :=
  choices.foldl
    (fun acc c =>
      let sc := tokenSetRatio query c
      match acc with
      | none => some (c, sc)
      | some (_, bs) => if sc > bs then some (c, sc) else acc)
    none

/-- `_map_to_canonical(pname, project_names, threshold)`. -/
def mapToCanonical (pname : Str) (projectNames : List Str) (threshold : ℚ) : Str :=
  match extractOne pname projectNames with
  | some (best, score) => if threshold ≤ score then best else pname
  | none => pname

/-! ### `_postprocess_and_expand_entries` -/

/-- An extracted row (`ExtractedRow` dictionary). -/
structure Row where
  project_name : Str
  title : Option Str
  summary : Str
  next_actions : Option Str
  owner : Option Str
  category : Option Str
  source_text : Option Str
deriving DecidableEq, Repr

/-- Literal-pattern `re.sub(re.escape(pat), repl, s)` worker. -/
def pyReSubLitGo (pat repl : Str) : Nat → Str → Str
  | 0, s => s
  | _ + 1, [] => []
  | fuel + 1, c :: rest =>
    if startsWithS pat (c :: rest) then repl ++ pyReSubLitGo pat repl fuel ((c :: rest).drop pat.length)
    else c :: pyReSubLitGo pat repl fuel rest

/-- Literal-pattern `re.sub(re.escape(pat), repl, s)` (an empty pattern matches
at every position, as in Python). -/
def pyReSubLit (pat repl s : Str) : Str :=
  if pat.isEmpty then repl ++ s.flatMap (fun c => c :: repl)
  else pyReSubLitGo pat repl s.length s

/-- The per-row canonical name candidates of the post-processor:
normalise, split conjoined names, normalise and fuzzy-map each part. -/
def nameCandidates (raw : Str) (projectNames : List Str) : List Str :=
  (expandConjoined (normalizeProjectName raw)).map
    (fun n => mapToCanonical (normalizeProjectName n) projectNames 90)

/-- Expansion of one row into one row per split candidate (title adjusted on
copies after the first when the title is non-empty). -/
def expandRow (projectNames : List Str) (r : Row) : List Row :=
  (nameCandidates r.project_name projectNames).enum.map
    (fun ip =>
      { r with
        project_name := ip.2
        title :=
          if 0 < ip.1 then
            match r.title with
            | some t => if t.isEmpty then some t else some (pyReSubLit r.project_name ip.2 t)
            | none => none
          else r.title })

/-- The composite deduplication key: normalised name, title, first 200 chars of
summary and of source text. -/
def rowKey (r : Row) : Str × Str × Str × Str :=
  (wsCollapse (lower (pstrip r.project_name)),
   wsCollapse (lower (pstrip (r.title.getD []))),
   wsCollapse (lower (pstrip (r.summary.take 200))),
   wsCollapse (lower (pstrip ((r.source_text.getD []).take 200))))

/-- Key-based first-occurrence deduplication of rows. -/
def dedupRowsGo : List (Str × Str × Str × Str) → List Row → List Row
  | _, [] => []
  | seen, r :: rs =>
    if seen.contains (rowKey r) then dedupRowsGo seen rs
    else r :: dedupRowsGo (rowKey r :: seen) rs

/-- `_postprocess_and_expand_entries(rows, project_names)`. -/
def postprocess (rows : List Row) (projectNames : List Str) : List Row :=
  dedupRowsGo [] (rows.flatMap (expandRow projectNames))

/-! ### JSON values and `json.loads` -/

/-- A JSON value; numbers keep their source token (their numeric value is
never used downstream). -/
inductive Json where
  | null
  | bool (b : Bool)
  | num (raw : Str)
  | str (s : Str)
  | arr (items : List Json)
  | obj (kvs : List (Str × Json))

/-- JSON whitespace (`json.decoder`: space, tab, newline, carriage return). -/
def jWS (c : Char) : Bool := c = ' ' || c = '\t' || c = '\n' || c = '\r'

/-- Skip JSON whitespace. -/
def jskip (s : Str) : Str := s.dropWhile jWS

/-- Insert a key into an object, Python-dict style: an existing key keeps its
position and takes the new value. -/
def insertKV (kvs : List (Str × Json)) (k : Str) (v : Json) : List (Str × Json) :=
  if kvs.any (fun p => decide (p.1 = k)) then
    kvs.map (fun p => if p.1 = k then (k, v) else p)
  else kvs ++ [(k, v)]

/-- Key lookup in a parsed object (keys are unique by construction). -/
def objGet (kvs : List (Str × Json)) (k : Str) : Option Json :=
  (kvs.find? (fun p => decide (p.1 = k))).map (fun p => p.2)

/-- Hex digit value. -/
def hexVal (c : Char) : Option Nat :=
  if c.isDigit then some (c.toNat - 48)
  else if 'a' ≤ c && c ≤ 'f' then some (c.toNat - 87)
  else if 'A' ≤ c && c ≤ 'F' then some (c.toNat - 55)
  else none

/-- JSON string body after the opening quote (strict: unescaped control
characters are rejected; `\uXXXX` yields the scalar, surrogate pairing is not
modelled). -/
def parseStringGo : Nat → Str → Str → Option (Str × Str)
  | 0, _, _ => none
  | _ + 1, _, [] => none
  | fuel + 1, acc, c :: rest =>
    if c = '"' then some (acc, rest)
    else if c = '\\' then
      match rest with
      | [] => none
      | e :: r2 =>
        if e = '"' then parseStringGo fuel (acc ++ ['"']) r2
        else if e = '\\' then parseStringGo fuel (acc ++ ['\\']) r2
        else if e = '/' then parseStringGo fuel (acc ++ ['/']) r2
        else if e = 'b' then parseStringGo fuel (acc ++ ['\x08']) r2
        else if e = 'f' then parseStringGo fuel (acc ++ ['\x0c']) r2
        else if e = 'n' then parseStringGo fuel (acc ++ ['\n']) r2
        else if e = 'r' then parseStringGo fuel (acc ++ ['\r']) r2
        else if e = 't' then parseStringGo fuel (acc ++ ['\t']) r2
        else if e = 'u' then
          match r2 with
          | h1 :: h2 :: h3 :: h4 :: r3 =>
            match hexVal h1, hexVal h2, hexVal h3, hexVal h4 with
            | some a, some b, some cc, some d =>
              parseStringGo fuel (acc ++ [Char.ofNat (a * 4096 + b * 256 + cc * 16 + d)]) r3
            | _, _, _, _ => none
          | _ => none
        else none
    else if c.toNat < 32 then none
    else parseStringGo fuel (acc ++ [c]) rest

/-- JSON number token (`NUMBER_RE`), plus Python's `NaN`/`Infinity`/`-Infinity`. -/
def parseNumber (s : Str) : Option (Str × Str) :=
  if startsWithS (str "NaN") s then some (str "NaN", s.drop 3)
  else if startsWithS (str "Infinity") s then some (str "Infinity", s.drop 8)
  else if startsWithS (str "-Infinity") s then some (str "-Infinity", s.drop 9)
  else
    let signLen : Nat :=
      match s with
      | '-' :: _ => 1
      | _ => 0
    let s1 := s.drop signLen
    let intLen : Nat :=
      match s1 with
      | '0' :: _ => 1
      | c :: _ => if c.isDigit then (s1.takeWhile Char.isDigit).length else 0
      | [] => 0
    if intLen = 0 then none
    else
      let s2 := s1.drop intLen
      let fracLen : Nat :=
        match s2 with
        | '.' :: r =>
          let d := r.takeWhile Char.isDigit
          if d.isEmpty then 0 else d.length + 1
        | _ => 0
      let s3 := s2.drop fracLen
      let expLen : Nat :=
        match s3 with
        | c :: r =>
          if c = 'e' || c = 'E' then
            let sgn : Nat :=
              match r with
              | '+' :: _ => 1
              | '-' :: _ => 1
              | _ => 0
            let d := (r.drop sgn).takeWhile Char.isDigit
            if d.isEmpty then 0 else 1 + sgn + d.length
          else 0
        | [] => 0
      let total := signLen + intLen + fracLen + expLen
      some (s.take total, s.drop total)

mutual
/-- JSON value at the head of the input (no leading whitespace). -/
def parseValue : Nat → Str → Option (Json × Str)
  | 0, _ => none
  | fuel + 1, s =>
    match s with
    | [] => none
    | '"' :: rest =>
      (parseStringGo (rest.length + 1) [] rest).map (fun p => (Json.str p.1, p.2))
    | '{' :: rest =>
      match jskip rest with
      | '}' :: r2 => some (Json.obj [], r2)
      | r1 => parseMembers fuel r1 []
    | '[' :: rest =>
      match jskip rest with
      | ']' :: r2 => some (Json.arr [], r2)
      | r1 => parseElems fuel r1 []
    | _ =>
      if startsWithS (str "true") s then some (Json.bool true, s.drop 4)
      else if startsWithS (str "false") s then some (Json.bool false, s.drop 5)
      else if startsWithS (str "null") s then some (Json.null, s.drop 4)
      else (parseNumber s).map (fun p => (Json.num p.1, p.2))

/-- Comma-separated array elements up to `]`. -/
def parseElems : Nat → Str → List Json → Option (Json × Str)
  | 0, _, _ => none
  | fuel + 1, s, acc =>
    match parseValue fuel (jskip s) with
    | none => none
    | some (v, r) =>
      match jskip r with
      | ',' :: r2 => parseElems fuel r2 (acc ++ [v])
      | ']' :: r2 => some (Json.arr (acc ++ [v]), r2)
      | _ => none

/-- Comma-separated object members up to `}`. -/
def parseMembers : Nat → Str → List (Str × Json) → Option (Json × Str)
  | 0, _, _ => none
  | fuel + 1, s, acc =>
    match jskip s with
    | '"' :: rest =>
      match parseStringGo (rest.length + 1) [] rest with
      | none => none
      | some (k, r) =>
        match jskip r with
        | ':' :: r2 =>
          match parseValue fuel (jskip r2) with
          | none => none
          | some (v, r3) =>
            match jskip r3 with
            | ',' :: r4 => parseMembers fuel r4 (insertKV acc k v)
            | '}' :: r4 => some (Json.obj (insertKV acc k v), r4)
            | _ => none
        | _ => none
    | _ => none
end

/-- Python `json.loads` (success/failure and the resulting value). -/
def jsonLoads (s : Str) : Option Json :=
  match parseValue (2 * s.length + 2) (jskip s) with
  | some (v, rest) => if (jskip rest).isEmpty then some v else none
  | none => none

/-! ### Pydantic schema (`ProjectEntry`, `ExtractionResponse`) -/

/-- `CategoryEnum`. -/
inductive Category where
  | development
  | epc
  | finance
  | investment
deriving DecidableEq, Repr

/-- `CategoryEnum.value`. -/
def catValue : Category → Str
  | .development => str "Development"
  | .epc => str "EPC"
  | .finance => str "Finance"
  | .investment => str "Investment"

/-- A validated `ProjectEntry` (fields after pydantic validators ran). -/
structure ProjectEntry where
  project_name : Str
  title : Option Str
  summary : Str
  next_actions : Option Str
  owner : Option Str
  category : Option Category
  source_text : Option Str
deriving DecidableEq, Repr

/-- `Optional[str]` field: missing or `null` ↦ `none`, a string ↦ itself,
anything else fails validation. -/
def asOptStr (kvs : List (Str × Json)) (k : Str) : Option (Option Str) :=
  match objGet kvs k with
  | none => some none
  | some Json.null => some none
  | some (Json.str s) => some (some s)
  | some _ => none

/-- `summary` field: default `""`; strings are stripped and an empty result
becomes `"No summary provided"`; non-strings fail. -/
def validatedSummary (kvs : List (Str × Json)) : Option Str :=
  match objGet kvs (str "summary") with
  | none => some (str "No summary provided")
  | some (Json.str s) =>
    let s2 := pstrip s
    some (if s2.isEmpty then str "No summary provided" else s2)
  | some _ => none

/-- `category` field: missing/`null`/`""` ↦ `none`; an exact enum value string
maps to the enum; anything else fails. -/
def validatedCategory (kvs : List (Str × Json)) : Option (Option Category) :=
  match objGet kvs (str "category") with
  | none => some none
  | some Json.null => some none
  | some (Json.str s) =>
    if s.isEmpty then some none
    else if s = str "Development" then some (some Category.development)
    else if s = str "EPC" then some (some Category.epc)
    else if s = str "Finance" then some (some Category.finance)
    else if s = str "Investment" then some (some Category.investment)
    else none
  | some _ => none

/-- `ProjectEntry(**entry)`: `none` models a pydantic `ValidationError`. -/
def validateEntry : Json → Option ProjectEntry
  | Json.obj kvs =>
    (match objGet kvs (str "project_name") with
     | some (Json.str pn0) =>
       let pn := pstrip pn0
       if pn.isEmpty then none
       else
         match asOptStr kvs (str "title"), validatedSummary kvs,
             asOptStr kvs (str "next_actions"), asOptStr kvs (str "owner"),
             validatedCategory kvs, asOptStr kvs (str "source_text") with
         | some title, some summary, some na, some ow, some cat, some st =>
           some ⟨pn, title, summary, na, ow, cat, st⟩
         | _, _, _, _, _, _ => none
     | _ => none)
  | _ => none

/-- Python exception classes distinguished by the handlers in the source. -/
inductive PyErr where
  | runtime (msg : Str)
  | indexError
  | typeError
  | validation
deriving DecidableEq, Repr

/-- `ExtractionResponse(**raw_data)`: requires a mapping (else `TypeError`)
with a `"rows"` list whose entries all validate (else `ValidationError`). -/
def validateResponse (raw : Json) : Except PyErr (List ProjectEntry) :=
  match raw with
  | Json.obj kvs =>
    match objGet kvs (str "rows") with
    | some (Json.arr items) =>
      match items.mapM validateEntry with
      | some entries => Except.ok entries
      | none => Except.error PyErr.validation
    | _ => Except.error PyErr.validation
  | _ => Except.error PyErr.typeError

/-! ### `_extract_rows_from_text_core` and its helpers -/

/-- `_normalize_category`. -/
def normalizeCategory (cat : Option Str) : Option Str :=
  match cat with
  | none => none
  | some c =>
    if c.isEmpty then none
    else
      let k := lower (pstrip c)
      if k = str "development" then some (str "Development")
      else if k = str "epc" then some (str "EPC")
      else if k = str "finance" then some (str "Finance")
      else if k = str "investment" then some (str "Investment")
      else none

/-- The per-entry row construction common to the three emission sites of
`_extract_rows_from_text_core`; the first site additionally routes the
category through `_normalize_category`. -/
def buildRow (useNormalizeCategory : Bool) (sectionText : Str) (e : ProjectEntry) : Row :=
  { project_name := e.project_name
    title := e.title
    summary := e.summary.take 1000
    next_actions := e.next_actions
    owner := e.owner
    category :=
      if useNormalizeCategory then normalizeCategory (e.category.map catValue)
      else e.category.map catValue
    source_text :=
      match e.source_text with
      | none => none
      | some prov0 =>
        some (if 80 ≤ (pstrip prov0).length then pstrip prov0 else pstrip sectionText) }

/-- `pat` occurs as a contiguous substring of `s`. -/
def isSubstr (pat : Str) : Str → Bool
  | [] => startsWithS pat []
  | c :: cs => startsWithS pat (c :: cs) || isSubstr pat cs

/-- Azure chat-completion `function_call` payload. -/
structure FunctionCallData where
  name : Option Str := none
  arguments : Option Str := none
deriving DecidableEq, Repr

/-- Azure chat-completion message (a JSON `null` content, which would raise in
the source and be swallowed by the outer handler, is conflated with absence). -/
structure Message where
  content : Option Str := none
  function_call : Option FunctionCallData := none
deriving DecidableEq, Repr

/-- Azure chat-completion choice. -/
structure Choice where
  message : Option Message := none
deriving DecidableEq, Repr

/-- Azure chat-completion response body. -/
structure AzureResp where
  choices : Option (List Choice) := none
deriving DecidableEq, Repr

/-- Extract the strategy's raw content from a response:
`data.get("choices", [{}])[0]` and the function-calling / plain branches. -/
def contentOf (useFC : Bool) (resp : AzureResp) : Except PyErr Str :=
  match resp.choices with
  | some [] => Except.error PyErr.indexError
  | _ =>
    let choice : Choice :=
      match resp.choices with
      | some (c :: _) => c
      | _ => {}
    let msg : Message := choice.message.getD {}
    if useFC then
      let fc : FunctionCallData := msg.function_call.getD {}
      if fc.name = some (str "extract_project_entries") then
        Except.ok (fc.arguments.getD (str "\x7b\x7d"))
      else Except.ok (msg.content.getD [])
    else Except.ok (pstrip (msg.content.getD []))

/-- Matcher for `` ```json\s* ``. -/
def fenceJsonMatch (_prev : Option Char) (s : Str) : Option Nat :=
  if startsWithS (str "```json") s then some (7 + ((s.drop 7).takeWhile isWS).length)
  else none

/-- Matcher for `` \s*``` ``. -/
def fenceCloseMatch (_prev : Option Char) (s : Str) : Option Nat :=
  let w := s.takeWhile isWS
  if startsWithS (str "```") (s.drop w.length) then some (w.length + 3) else none

/-- Strip markdown code-fence artifacts (the two `re.sub` calls). -/
def cleanFences (s : Str) : Str := reSub fenceCloseMatch [] (reSub fenceJsonMatch [] s)

/-- Is a number token falsy (numerically zero)? -/
def numIsZero (raw : Str) : Bool :=
  let core := raw.takeWhile (fun c => c ≠ 'e' && c ≠ 'E')
  core.any Char.isDigit && (core.filter Char.isDigit).all (fun c => c = '0')

/-- `(item.get(k) or "")` followed by a string operation: `some` is the string
seen by the code, `none` models the `AttributeError`/`TypeError` that a truthy
non-string value would raise (caught per item). -/
def pyGetStrOr (kvs : List (Str × Json)) (k : Str) : Option Str :=
  match objGet kvs k with
  | none => some []
  | some Json.null => some []
  | some (Json.bool false) => some []
  | some (Json.bool true) => none
  | some (Json.num raw) => if numIsZero raw then some [] else none
  | some (Json.str s) => some s
  | some (Json.arr items) => if items.isEmpty then some [] else none
  | some (Json.obj kvs2) => if kvs2.isEmpty then some [] else none

/-- The `_filter_rows` whitelist guardrail loop (per-item failures skipped). -/
def filterRowsGo (allowed : List Str) : List (Str × Str × Str) → List Json → List Json
  | _, [] => []
  | seen, item :: rest =>
    match item with
    | Json.obj kvs =>
      (match pyGetStrOr kvs (str "project_name") with
       | none => filterRowsGo allowed seen rest
       | some pn0 =>
         let pname := pstrip pn0
         if !allowed.contains (lower pname) then filterRowsGo allowed seen rest
         else
           match pyGetStrOr kvs (str "summary"), pyGetStrOr kvs (str "category") with
           | some sm, some ct =>
             let k := (lower pname, lower (sm.take 8), lower ct)
             if seen.contains k then filterRowsGo allowed seen rest
             else item :: filterRowsGo allowed (k :: seen) rest
           | _, _ => filterRowsGo allowed seen rest)
    | _ => filterRowsGo allowed seen rest

/-- `_filter_rows`: keep only whitelisted project names (whitelist projects
plus all cluster members), deduplicated by name, summary head and category. -/
def filterRows (wp : List Str) (cm : List (Str × List Str)) (items : List Json) : List Json :=
  let allowed := wp.map lower ++ cm.flatMap (fun p => p.2.map lower)
  if allowed.isEmpty then items else filterRowsGo allowed [] items

/-- Python `key in value` for the shapes reachable here
(`dict`/`str`/`list`; others raise `TypeError`). -/
def pyContains (raw : Json) (key : Str) : Except PyErr Bool :=
  match raw with
  | Json.obj kvs => Except.ok (kvs.any (fun p => decide (p.1 = key)))
  | Json.str s => Except.ok (isSubstr key s)
  | Json.arr items =>
    Except.ok (items.any (fun it =>
      match it with
      | Json.str s => decide (s = key)
      | _ => false))
  | _ => Except.error PyErr.typeError

/-- `_clean_raw_data_for_validation` (returns `{}` — falsy — on all failure
paths, including the swallowed exceptions). -/
def cleanRaw (raw : Json) : Json :=
  let raw2 :=
    match raw with
    | Json.arr items => Json.obj [(str "rows", Json.arr items)]
    | _ => raw
  match raw2 with
  | Json.obj kvs =>
    (match objGet kvs (str "rows") with
     | some (Json.arr items) =>
       let cleaned := items.filter (fun item =>
         match item with
         | Json.obj ikvs => (objGet ikvs (str "project_name")).isSome
         | _ => false)
       if cleaned.isEmpty then Json.obj [] else Json.obj [(str "rows", Json.arr cleaned)]
     | _ => Json.obj [])
  | _ => Json.obj []

/-- `_extract_array_from_malformed_content`: first `\[.*?\]` substring,
parsed, keeping dict items. -/
def extractArrayFromMalformed (content : Str) : List Json :=
  match content.findIdx? (fun c => c = '[') with
  | none => []
  | some i =>
    let tail := content.drop i
    match (tail.drop 1).findIdx? (fun c => c = ']') with
    | none => []
    | some j =>
      match jsonLoads (tail.take (j + 2)) with
      | some (Json.arr items) =>
        items.filter (fun it =>
          match it with
          | Json.obj _ => true
          | _ => false)
      | _ => []

/-- Locate `"rows"\s*:\s*\[` and return everything after the bracket. -/
def findRowsStart : Str → Option Str
  | [] => none
  | c :: rest =>
    if startsWithS (str "\"rows\"") (c :: rest) then
      match dropWS ((c :: rest).drop 6) with
      | ':' :: r2 =>
        (match dropWS r2 with
         | '[' :: r4 => some r4
         | _ => findRowsStart rest)
      | _ => findRowsStart rest
    else findRowsStart rest

/-- Separator `\}\s*,\s*\{` at the head; returns its length. -/
def braceSplitMatch (s : Str) : Option Nat :=
  match s with
  | '}' :: r =>
    let w := r.takeWhile isWS
    (match r.drop w.length with
     | ',' :: r2 =>
       let w2 := r2.takeWhile isWS
       (match r2.drop w2.length with
        | '{' :: _ => some (w.length + w2.length + 3)
        | _ => none)
     | _ => none)
  | _ => none

/-- `re.split(r'\}\s*,\s*\{', s)` worker. -/
def splitBraceGo : Nat → Str → Str → List Str
  | 0, acc, s => [acc ++ s]
  | _ + 1, acc, [] => [acc]
  | fuel + 1, acc, c :: rest =>
    match braceSplitMatch (c :: rest) with
    | some k => acc :: splitBraceGo fuel [] ((c :: rest).drop k)
    | none => splitBraceGo fuel (acc ++ [c]) rest

/-- `re.split(r'\}\s*,\s*\{', s)`. -/
def splitBrace (s : Str) : List Str := splitBraceGo s.length [] s

/-- Re-brace the split pieces exactly as the source does (first and last get
only an opening brace, middle pieces get both). -/
def rebuildEntries (pieces : List Str) : List Str :=
  let n := pieces.length
  pieces.enum.map (fun ip =>
    if ip.1 = 0 then '{' :: ip.2
    else if ip.1 = n - 1 then '{' :: ip.2
    else '{' :: ip.2 ++ ['}'])

/-- `entry_json.rstrip().endswith('}')`. -/
def endsWithBrace (s : Str) : Bool :=
  match (rstrip s).getLast? with
  | some c => c = '}'
  | none => false

/-- `_extract_complete_entries_from_partial_json`. -/
def extractCompleteEntries (content : Str) : List Json :=
  match findRowsStart content with
  | none => []
  | some rowsContent =>
    (rebuildEntries (splitBrace rowsContent)).filterMap (fun ej =>
      if endsWithBrace ej then jsonLoads ej else none)

/-- Per-entry validation and row construction of the recovery block. -/
def recoveryFrom (sectionText : Str) (entries : List Json) : Option (List Row) :=
  if entries.isEmpty then none
  else if (entries.filterMap
      (fun j => (validateEntry j).map (buildRow false sectionText))).isEmpty then none
  else some (entries.filterMap (fun j => (validateEntry j).map (buildRow false sectionText)))

/-- The attempt-3 regex recovery block (lines 504–537): `some rows` models
`return result`, `none` models falling through to the final `continue`. -/
def recoveryRows (sectionText : Str) (content : Str) : Option (List Row) :=
  recoveryFrom sectionText
    (if (extractArrayFromMalformed content).isEmpty then extractCompleteEntries content
     else extractArrayFromMalformed content)

/-- `raw_data = {"rows": raw_data} if isinstance(raw_data, list) else raw_data`. -/
def wrapRows : Json → Json
  | Json.arr items => Json.obj [(str "rows", Json.arr items)]
  | v => v

/-- The whitelist guardrail block (lines 446–448): may raise `TypeError`
through the `in`/indexing operations on a non-mapping payload. -/
def applyWhitelistFilter (whitelistOn : Bool) (wp : List Str) (cm : List (Str × List Str))
    (rawData : Json) : Except PyErr Json :=
  if whitelistOn then
    match pyContains rawData (str "rows") with
    | Except.error e => Except.error e
    | Except.ok b =>
      if b then
        match rawData with
        | Json.obj kvs =>
          (match objGet kvs (str "rows") with
           | some (Json.arr items) =>
             Except.ok (Json.obj (insertKV kvs (str "rows") (Json.arr (filterRows wp cm items))))
           | _ => Except.ok rawData)
        | _ => Except.error PyErr.typeError
      else Except.ok rawData
  else Except.ok rawData

/-- The data-cleaning retry of the `ValidationError` handler (lines 475–502),
attempted only on non-final strategies. -/
def viaCleaning (sectionText : Str) (isLast : Bool) (rawData2 : Json) : Option (List Row) :=
  if isLast then none
  else
    match cleanRaw rawData2 with
    | Json.obj [] => none
    | cleaned =>
      match validateResponse cleaned with
      | Except.ok entries2 => some (entries2.map (buildRow false sectionText))
      | Except.error _ => none

/-- The inner `try` of one strategy attempt (lines 410–540) on the
fence-cleaned, stripped content: `some rows` models a `return`, `none` models
`continue` (whether via the inner handlers or via an exception reaching the
outer `except`). -/
def processCleaned (whitelistOn : Bool) (sectionText : Str) (wp : List Str)
    (cm : List (Str × List Str)) (isLast : Bool) (content : Str) : Option (List Row) :=
  match jsonLoads content with
  | none => if isLast then recoveryRows sectionText content else none
  | some v =>
    match applyWhitelistFilter whitelistOn wp cm (wrapRows v) with
    | Except.error _ => none
    | Except.ok rawData2 =>
      match validateResponse rawData2 with
      | Except.ok entries => some (entries.map (buildRow true sectionText))
      | Except.error PyErr.validation =>
        (match viaCleaning sectionText isLast rawData2 with
         | some rows => some rows
         | none => if isLast then recoveryRows sectionText content else none)
      | Except.error _ => none

/-- One strategy attempt on the raw content string (cleans fences, strips,
then processes). -/
def processContent (whitelistOn : Bool) (sectionText : Str) (wp : List Str)
    (cm : List (Str × List Str)) (isLast : Bool) (content0 : Str) : Option (List Row) :=
  processCleaned whitelistOn sectionText wp cm isLast (pstrip (cleanFences content0))

/-- Credential and feature-flag environment of the extractor. -/
structure Env where
  apiKey : Option Str
  endpoint : Option Str
  deployment : Option Str
  whitelistEnabled : Bool

/-- Python truthiness of an optional environment string. -/
def truthyOpt : Option Str → Bool
  | none => false
  | some s => !s.isEmpty

/-- The credential check of `_azure_chat_completion`
(`not (api_key and endpoint and deployment)`). -/
def credsMissing (env : Env) : Bool :=
  !(truthyOpt env.apiKey && truthyOpt env.endpoint && truthyOpt env.deployment)

/-- `_azure_chat_completion`: raises `RuntimeError` when a credential is
missing, otherwise the network outcome is the oracle's answer for this
attempt (the request payload itself cannot influence our claims, since the
oracle is universally quantified). -/
def azureCall (env : Env) (oracle : Nat → Except PyErr AzureResp) (attempt : Nat) :
    Except PyErr AzureResp :=
  if credsMissing env then Except.error (PyErr.runtime (str "Azure OpenAI env vars missing"))
  else oracle attempt

/-- One iteration of the strategy loop: any exception from the call or the
content extraction reaches the outer `except` and becomes `continue`. -/
def runAttempt (callResult : Except PyErr AzureResp) (useFC : Bool) (whitelistOn : Bool)
    (sectionText : Str) (wp : List Str) (cm : List (Str × List Str)) (isLast : Bool) :
    Option (List Row) :=
  match callResult with
  | Except.error _ => none
  | Except.ok data =>
    match contentOf useFC data with
    | Except.error _ => none
    | Except.ok c => processContent whitelistOn sectionText wp cm isLast c

/-- `_extract_rows_from_text_core`: the three strategies in order
(JSON mode, function calling, plain prompt), ending in `return []`.
The result is an `Except` so that "raises to the caller" is expressible;
the prompt construction (lines 355–387) only shapes the outbound request,
which the oracle abstracts. -/
def extractCore (env : Env) (oracle : Nat → Except PyErr AzureResp) (sectionText : Str)
    (wp : List Str) (cm : List (Str × List Str)) : Except PyErr (List Row) :=
  match runAttempt (azureCall env oracle 1) false env.whitelistEnabled sectionText wp cm false with
  | some rows => Except.ok rows
  | none =>
    match runAttempt (azureCall env oracle 2) true env.whitelistEnabled sectionText wp cm false with
    | some rows => Except.ok rows
    | none =>
      match runAttempt (azureCall env oracle 3) false env.whitelistEnabled sectionText wp cm true with
      | some rows => Except.ok rows
      | none => Except.ok []

/-! ### Concrete fixtures for witnesses and counterexamples -/

/-- An environment with all Azure credentials present and whitelisting off. -/
def envOK : Env :=
  { apiKey := some (str "k"), endpoint := some (str "e"), deployment := some (str "d"),
    whitelistEnabled := false }

/-- An environment with every Azure credential unset (as in the repository's
`test_extract_rows_missing_env_vars`). -/
def envNoCreds : Env :=
  { apiKey := none, endpoint := none, deployment := none, whitelistEnabled := false }

/-- A response whose single choice carries the given content. -/
def respWith (c : Str) : AzureResp :=
  { choices := some [{ message := some { content := some c } }] }

/-- Fabricated 80-character evidence that appears nowhere in the section. -/
def fabEvidence : Str := List.replicate 80 'z'

/-- A syntactically valid LLM payload whose `source_text` is fabricated
evidence of length 80. -/
def fabContent : Str :=
  str "\x7b\"rows\": [\x7b\"project_name\": \"Alpha\", \"summary\": \"s\", \"source_text\": \""
    ++ fabEvidence ++ str "\"\x7d]\x7d"

/-- The section text for the fabricated-evidence run. -/
def shortSection : Str := str "Short section."

/-- Oracle answering every strategy with the fabricated-evidence payload. -/
def fabOracle : Nat → Except PyErr AzureResp := fun _ => Except.ok (respWith fabContent)

/-- Oracle answering every strategy with unparseable content. -/
def garbageOracle : Nat → Except PyErr AzureResp :=
  fun _ => Except.ok (respWith (str "not json at all"))

/-- The row whose project name drives the idempotence counterexample:
normalisation leaves `"Divor 1+2 5 MW"`, which does not match the conjoined
pattern, but its own normalisation strips the capacity and leaves
`"Divor 1+2"`, which a second pass splits. -/
def unstableRow : Row :=
  { project_name := str "Divor 1+2_5_MW", title := none, summary := [],
    next_actions := none, owner := none, category := none, source_text := none }

/-- A row that is stable under the per-name pipeline. -/
def stableRow : Row :=
  { project_name := str "Divor", title := none, summary := str "s",
    next_actions := none, owner := none, category := none, source_text := none }

/-- An entry whose reported evidence carries a leading blank and strips to
exactly 80 characters. -/
def paddedEntry : ProjectEntry :=
  ⟨str "Alpha", none, str "s", none, none, none, some (' ' :: List.replicate 80 'a')⟩

/-! ## Theorems -/

/-! ### Substring infrastructure -/

theorem startsWithS_self_append (b v : Str) : startsWithS b (b ++ v) = true := by
  induction b with
  | nil => rfl
  | cons c cs ih => simpa [startsWithS] using ih

theorem isSubstr_of_startsWith {pat s : Str} (h : startsWithS pat s = true) :
    isSubstr pat s = true := by
  cases s with
  | nil => simpa [isSubstr] using h
  | cons c cs => simp [isSubstr, h]

theorem isSubstr_append_left (u : Str) {pat s : Str} (h : isSubstr pat s = true) :
    isSubstr pat (u ++ s) = true := by
  induction u with
  | nil => simpa using h
  | cons c cs ih => simp [isSubstr, ih]

theorem isSubstr_decomp (u b v : Str) : isSubstr b (u ++ (b ++ v)) = true :=
  isSubstr_append_left u (isSubstr_of_startsWith (startsWithS_self_append b v))

theorem rstrip_decomp (s : Str) : s = rstrip s ++ (s.reverse.takeWhile isWS).reverse := by
  rw [rstrip, ← List.reverse_append, List.takeWhile_append_dropWhile, List.reverse_reverse]

theorem pstrip_decomp (s : Str) :
    ∃ u v, s = u ++ (pstrip s ++ v) := by
  refine ⟨(rstrip s).takeWhile isWS, (s.reverse.takeWhile isWS).reverse, ?_⟩
  conv_lhs => rw [rstrip_decomp s]
  rw [← List.append_assoc]
  congr 1
  rw [pstrip, lstrip]
  exact (List.takeWhile_append_dropWhile (p := isWS) (l := rstrip s)).symm

theorem isSubstr_of_eq_decomp {p s : Str} (u v : Str) (h : s = u ++ (p ++ v)) :
    isSubstr p s = true := by
  rw [h]
  exact isSubstr_decomp u p v

theorem isSubstr_pstrip (s : Str) : isSubstr (pstrip s) s = true := by
  obtain ⟨u, v, huv⟩ := pstrip_decomp s
  exact isSubstr_of_eq_decomp u v huv

/-! ### C9 — safe truncation -/

/-- C9: `_safe_truncate_text` returns a prefix of its input whose length is at
most four characters per token of the positive budget. -/
theorem safeTruncate_prefix_bounded (text : Str) (maxTokens : Nat) (_hpos : 0 < maxTokens) :
    (∃ k, safeTruncate text maxTokens = text.take k) ∧
      (safeTruncate text maxTokens).length ≤ 4 * maxTokens := by
  have hbound : ∀ j, ((text.take (maxTokens * 4)).take j).length ≤ 4 * maxTokens := by
    intro j
    simp only [List.length_take]
    omega
  have hpre : ∀ j, ∃ k, (text.take (maxTokens * 4)).take j = text.take k := by
    intro j
    exact ⟨min j (maxTokens * 4), List.take_take j (maxTokens * 4) text⟩
  unfold safeTruncate
  by_cases h1 : text.length ≤ maxTokens * 4
  · simp only [h1, if_true]
    exact ⟨⟨text.length, (List.take_length text).symm⟩, by omega⟩
  · simp only [h1, if_false]
    split
    · exact ⟨hpre _, hbound _⟩
    · split
      · exact ⟨hpre _, hbound _⟩
      · split
        · exact ⟨hpre _, hbound _⟩
        · refine ⟨⟨maxTokens * 4, rfl⟩, ?_⟩
          simp only [List.length_take]
          omega

/-- C9 witness: the theorem applied at a concrete input. -/
theorem safeTruncate_prefix_bounded_witness :
    0 < 1 ∧
      ((∃ k, safeTruncate (str "hello world") 1 = (str "hello world").take k) ∧
        (safeTruncate (str "hello world") 1).length ≤ 4 * 1) :=
  ⟨by decide, safeTruncate_prefix_bounded (str "hello world") 1 (by decide)⟩

/-! ### C5 — source_text policy of the per-entry row construction -/

/-- C5 counterexample: an evidence string with a leading blank whose stripped
length is 80; the claim says the emitted `source_text` equals the evidence,
but the code emits the stripped evidence. -/
theorem buildRow_keeps_stripped_evidence_counterexample :
    paddedEntry.source_text = some (' ' :: List.replicate 80 'a') ∧
      80 ≤ (pstrip (' ' :: List.replicate 80 'a')).length ∧
      (buildRow true (str "sec") paddedEntry).source_text ≠ some (' ' :: List.replicate 80 'a') := by
  refine ⟨rfl, by decide, ?_⟩
  decide

/-- C5 amended: when the model supplies evidence, the emitted `source_text` is
the **stripped** evidence if its length is at least 80, and the **stripped**
section text otherwise. -/
theorem buildRow_source_text_policy (b : Bool) (text : Str) (e : ProjectEntry) (ev : Str)
    (h : e.source_text = some ev) :
    (buildRow b text e).source_text =
      some (if 80 ≤ (pstrip ev).length then pstrip ev else pstrip text) := by
  unfold buildRow
  simp only [h]

/-- C5 witness: the amended policy applied at a concrete entry. -/
theorem buildRow_source_text_policy_witness :
    paddedEntry.source_text = some (' ' :: List.replicate 80 'a') ∧
      (buildRow true (str "sec") paddedEntry).source_text =
        some (if 80 ≤ (pstrip (' ' :: List.replicate 80 'a')).length
              then pstrip (' ' :: List.replicate 80 'a') else pstrip (str "sec")) :=
  ⟨rfl, buildRow_source_text_policy true (str "sec") paddedEntry (' ' :: List.replicate 80 'a') rfl⟩

/-! ### C2 — missing credentials are swallowed, not raised -/

/-- C2: with every credential unset, `_azure_chat_completion` raises
`RuntimeError` — but `_extract_rows_from_text_core` catches it in its broad
per-strategy handler, retries the remaining strategies against the same
missing configuration, and silently returns the empty list instead of
propagating the error (contradicting the spec and the repository's own
`test_extract_rows_missing_env_vars`). -/
theorem extractCore_swallows_missing_credentials :
    credsMissing envNoCreds = true ∧
      (∀ oracle attempt,
        azureCall envNoCreds oracle attempt =
          Except.error (PyErr.runtime (str "Azure OpenAI env vars missing"))) ∧
      (∀ oracle text wp cm, extractCore envNoCreds oracle text wp cm = Except.ok []) :=
  ⟨rfl, fun _ _ => rfl, fun _ _ _ _ => rfl⟩

/-! ### Section splitter infrastructure -/

theorem chunksGo_flatten {k : Nat} (hk : 0 < k) :
    ∀ (fuel : Nat) (s : Str), s.length ≤ fuel → (chunksGo k fuel s).flatten = s := by
  intro fuel
  induction fuel with
  | zero =>
    intro s hs
    have h0 : s = [] := List.eq_nil_of_length_eq_zero (Nat.le_zero.mp hs)
    subst h0
    rfl
  | succ f ih =>
    intro s hs
    cases s with
    | nil => rfl
    | cons a as =>
      simp only [chunksGo, List.flatten_cons]
      rw [ih (List.drop k (a :: as))]
      · exact List.take_append_drop k (a :: as)
      · have hlen := List.length_drop k (a :: as)
        simp only [List.length_cons] at hs hlen ⊢
        omega

theorem chunksGo_mem {k : Nat} (hk : 0 < k) :
    ∀ (fuel : Nat) (s c : Str), c ∈ chunksGo k fuel s → c ≠ [] ∧ c.length ≤ k := by
  intro fuel
  induction fuel with
  | zero =>
    intro s c hc
    simp [chunksGo] at hc
  | succ f ih =>
    intro s c hc
    cases s with
    | nil => simp [chunksGo] at hc
    | cons a as =>
      simp only [chunksGo, List.mem_cons] at hc
      rcases hc with rfl | hc
      · obtain ⟨k', rfl⟩ := Nat.exists_eq_succ_of_ne_zero (Nat.pos_iff_ne_zero.mp hk)
        refine ⟨by simp, ?_⟩
        simp only [List.length_take, List.length_cons]
        omega
      · exact ih _ _ hc

theorem emittedFor_props {mc : Nat} (hmc : 0 < mc) (current : List Str) :
    (emittedFor mc current).flatten = cleanText (joinNl current) ∧
      ∀ s ∈ emittedFor mc current, s ≠ [] ∧ s.length ≤ mc := by
  unfold emittedFor
  by_cases h1 : current.isEmpty
  · have hc : current = [] := List.isEmpty_iff.mp h1
    subst hc
    exact ⟨rfl, by simp⟩
  · simp only [h1, Bool.false_eq_true, if_false]
    by_cases h2 : (cleanText (joinNl current)).isEmpty
    · have hz : cleanText (joinNl current) = [] := List.isEmpty_iff.mp h2
      simp [h2, hz]
    · simp only [h2, Bool.false_eq_true, if_false]
      by_cases h3 : (cleanText (joinNl current)).length ≤ mc
      · simp only [h3, if_true]
        refine ⟨by simp, ?_⟩
        intro s hs
        rcases List.mem_singleton.mp hs with rfl
        exact ⟨fun hnil => h2 (by simp [hnil]), h3⟩
      · simp only [h3, if_false]
        refine ⟨chunksGo_flatten hmc _ _ (Nat.le_refl _), ?_⟩
        intro s hs
        exact chunksGo_mem hmc _ _ s hs

theorem pushCurrent_good {mc : Nat} (hmc : 0 < mc) {sections : List Str} (current : List Str)
    (hsec : ∀ s ∈ sections, s ≠ [] ∧ s.length ≤ mc) :
    ∀ s ∈ pushCurrent mc sections current, s ≠ [] ∧ s.length ≤ mc := by
  intro s hs
  rcases List.mem_append.mp hs with h | h
  · exact hsec s h
  · exact (emittedFor_props hmc current).2 s h

theorem splitLoop_good {mc : Nat} (hmc : 0 < mc) :
    ∀ (lines sections current : List Str),
      (∀ s ∈ sections, s ≠ [] ∧ s.length ≤ mc) →
      ∀ s ∈ splitLoop mc lines sections current, s ≠ [] ∧ s.length ≤ mc := by
  intro lines
  induction lines with
  | nil =>
    intro sections current hsec s hs
    exact pushCurrent_good hmc current hsec s hs
  | cons raw rest ih =>
    intro sections current hsec s hs
    unfold splitLoop at hs
    split at hs
    · split at hs
      · exact ih _ _ hsec s hs
      · exact ih _ _ (pushCurrent_good hmc current hsec) s hs
    · split at hs
      · exact ih _ _ (pushCurrent_good hmc current hsec) s hs
      · exact ih _ _ hsec s hs

theorem splitOnNl_ne_nil (s : Str) : splitOnNl s ≠ [] := by
  cases s with
  | nil => simp [splitOnNl]
  | cons c rest =>
    simp only [splitOnNl]
    split
    · simp
    · split <;> simp

theorem joinNl_cons_cons (c : Char) (h : Str) (t : List Str) :
    joinNl ((c :: h) :: t) = c :: joinNl (h :: t) := by
  cases t with
  | nil => rfl
  | cons y t' => simp [joinNl]

theorem joinNl_splitOnNl (s : Str) : joinNl (splitOnNl s) = s := by
  induction s with
  | nil => rfl
  | cons c rest ih =>
    simp only [splitOnNl]
    by_cases hc : c = '\n'
    · subst hc
      simp only [if_pos rfl]
      cases hr : splitOnNl rest with
      | nil => exact absurd hr (splitOnNl_ne_nil rest)
      | cons h t =>
        rw [hr] at ih
        simpa [joinNl] using ih
    · simp only [hc, if_false]
      cases hr : splitOnNl rest with
      | nil => exact absurd hr (splitOnNl_ne_nil rest)
      | cons h t =>
        rw [hr] at ih
        rw [joinNl_cons_cons, ih]

/-! ### C3 — no-boundary fallback -/

/-- C3 counterexample: the input `" "` is non-empty and contains no strong
boundary line, yet the splitter returns zero sections (the claim demands
exactly one). -/
theorem splitIntoSections_blank_input_counterexample :
    ([' '] : Str) ≠ [] ∧
      (∀ raw ∈ splitOnNl [' '], strongLine raw = false) ∧
      splitIntoSections [' '] 6000 = [] := by
  refine ⟨by decide, ?_, by decide⟩
  decide

/-- C3 amended: for input whose **cleaned** text is non-empty and in which no
line is a strong boundary, the splitter returns exactly one section — the
cleaned input text; a whitespace-only (yet non-empty) input instead yields no
sections. -/
theorem splitIntoSections_no_boundary (text : Str) (mc : Nat)
    (hnb : ∀ raw ∈ splitOnNl text, strongLine raw = false)
    (hne : cleanText text ≠ []) :
    splitIntoSections text mc = [cleanText text] := by
  have htext : text.isEmpty = false := by
    cases text with
    | nil => exact absurd rfl hne
    | cons _ _ => rfl
  have hany : (splitOnNl text).any strongLine = false := by
    rw [List.any_eq_false]
    intro x hx
    simp [hnb x hx]
  unfold splitIntoSections
  rw [htext]
  simp only [Bool.false_eq_true, if_false, hany, joinNl_splitOnNl]
  have hne' : (cleanText text).isEmpty = false := by
    cases hcc : cleanText text with
    | nil => exact absurd hcc hne
    | cons _ _ => rfl
  rw [hne']
  simp

/-- C3 witness: the amended statement applied at a concrete input. -/
theorem splitIntoSections_no_boundary_witness :
    (∀ raw ∈ splitOnNl (str "ab"), strongLine raw = false) ∧ cleanText (str "ab") ≠ [] ∧
      splitIntoSections (str "ab") 6000 = [cleanText (str "ab")] :=
  ⟨by decide, by decide, splitIntoSections_no_boundary (str "ab") 6000 (by decide) (by decide)⟩

/-! ### C4 — section length cap -/

/-- C4 counterexample: with cap 5, the boundary-free input `"abcdef"` comes
back as a single section of length 6 — the no-boundary fallback section is
never capped. -/
theorem splitIntoSections_uncapped_counterexample :
    splitIntoSections (str "abcdef") 5 = [str "abcdef"] ∧
      ¬((str "abcdef").length ≤ 5) := by
  refine ⟨by decide, by decide⟩

/-- C4 amended: every returned section is non-empty; when the text contains a
strong boundary every returned section is capped at `maxChars`, and each
completed section is emitted as consecutive `maxChars`-sized chunks whose
in-order concatenation is exactly the cleaned section text; the single
no-boundary fallback section is exempt from the cap. -/
theorem splitIntoSections_sections_wellformed (text : Str) (mc : Nat) (hmc : 0 < mc) :
    (∀ s ∈ splitIntoSections text mc, s ≠ []) ∧
      ((splitOnNl text).any strongLine = true →
        ∀ s ∈ splitIntoSections text mc, s.length ≤ mc) ∧
      (∀ sections current, pushCurrent mc sections current = sections ++ emittedFor mc current) ∧
      (∀ current, (emittedFor mc current).flatten = cleanText (joinNl current)) ∧
      (∀ current s, s ∈ emittedFor mc current → s ≠ [] ∧ s.length ≤ mc) := by
  refine ⟨?_, ?_, fun _ _ => rfl, fun current => (emittedFor_props hmc current).1,
    fun current s hs => (emittedFor_props hmc current).2 s hs⟩
  · intro s hs
    unfold splitIntoSections at hs
    split at hs
    · simp at hs
    · split at hs
      · exact (splitLoop_good hmc _ _ _ (by simp) s hs).1
      · split at hs
        · simp at hs
        · rcases List.mem_singleton.mp hs with rfl
          rename_i hsolo
          intro hnil
          rw [hnil] at hsolo
          exact hsolo rfl
  · intro hany s hs
    unfold splitIntoSections at hs
    rw [hany] at hs
    simp only [if_true] at hs
    split at hs
    · simp at hs
    · exact (splitLoop_good hmc _ _ _ (by simp) s hs).2

/-- C4 witness: the amended statement applied at a concrete input and cap. -/
theorem splitIntoSections_sections_wellformed_witness :
    0 < 5 ∧
      ((∀ s ∈ splitIntoSections (str "(Spain) hi\nabcdefgh") 5, s ≠ []) ∧
        ((splitOnNl (str "(Spain) hi\nabcdefgh")).any strongLine = true →
          ∀ s ∈ splitIntoSections (str "(Spain) hi\nabcdefgh") 5, s.length ≤ 5) ∧
        (∀ sections current,
          pushCurrent 5 sections current = sections ++ emittedFor 5 current) ∧
        (∀ current, (emittedFor 5 current).flatten = cleanText (joinNl current)) ∧
        (∀ current s, s ∈ emittedFor 5 current → s ≠ [] ∧ s.length ≤ 5)) :=
  ⟨by decide, splitIntoSections_sections_wellformed (str "(Spain) hi\nabcdefgh") 5 (by decide)⟩

/-! ### Case-insensitive deduplication infrastructure -/

theorem dedupCIGo_not_seen :
    ∀ (l seen : List Str) (x : Str), x ∈ dedupCIGo seen l → seen.contains (lower x) = false := by
  intro l
  induction l with
  | nil =>
    intro seen x hx
    simp [dedupCIGo] at hx
  | cons a as ih =>
    intro seen x hx
    simp only [dedupCIGo] at hx
    split at hx
    · exact ih seen x hx
    · rename_i hnot
      rcases List.mem_cons.mp hx with rfl | hx'
      · exact Bool.not_eq_true _ ▸ by simpa using hnot
      · have h2 := ih (lower a :: seen) x hx'
        simp only [List.contains_cons, Bool.or_eq_false_iff] at h2
        exact h2.2

theorem dedupCIGo_pairwise :
    ∀ (l seen : List Str), (dedupCIGo seen l).Pairwise (fun a b => lower a ≠ lower b) := by
  intro l
  induction l with
  | nil =>
    intro seen
    simp [dedupCIGo]
  | cons a as ih =>
    intro seen
    simp only [dedupCIGo]
    split
    · exact ih seen
    · refine List.Pairwise.cons ?_ (ih (lower a :: seen))
      intro y hy
      have hns := dedupCIGo_not_seen as (lower a :: seen) y hy
      simp only [List.contains_cons, Bool.or_eq_false_iff, beq_eq_false_iff_ne, ne_eq] at hns
      exact fun h => hns.1 h.symm

theorem dedupCIGo_sublist : ∀ (l seen : List Str), (dedupCIGo seen l).Sublist l := by
  intro l
  induction l with
  | nil =>
    intro seen
    simp [dedupCIGo]
  | cons a as ih =>
    intro seen
    simp only [dedupCIGo]
    split
    · exact (ih seen).cons a
    · exact (ih (lower a :: seen)).cons₂ a

theorem dedupCIGo_covers :
    ∀ (l seen : List Str) (x : Str), x ∈ l →
      seen.contains (lower x) = true ∨ ∃ y ∈ dedupCIGo seen l, lower y = lower x := by
  intro l
  induction l with
  | nil =>
    intro seen x hx
    cases hx
  | cons a as ih =>
    intro seen x hx
    simp only [dedupCIGo]
    rcases List.mem_cons.mp hx with rfl | hx'
    · split
      · rename_i hseen
        exact Or.inl hseen
      · exact Or.inr ⟨x, List.mem_cons_self _ _, rfl⟩
    · split
      · exact ih seen x hx'
      · rcases ih (lower a :: seen) x hx' with hc | ⟨y, hy, hly⟩
        · simp only [List.contains_cons, Bool.or_eq_true, beq_iff_eq] at hc
          rcases hc with h1 | h2
          · exact Or.inr ⟨a, List.mem_cons_self _ _, h1.symm⟩
          · exact Or.inl h2
        · exact Or.inr ⟨y, List.mem_cons_of_mem a hy, hly⟩

theorem expandConjoined_eq_dedupCI (name : Str) :
    expandConjoined name = dedupCI (expandOuts name) := by
  unfold expandConjoined expandOuts dedupCI
  cases conjMatch (pstrip name) with
  | none => rfl
  | some bp => rfl

/-! ### C6 — conjoined-name expansion -/

/-- C6: the two specified expansions hold exactly, and for every input the
result is case-insensitively duplicate-free, an order-preserving sublist of
the raw expansion, and covers every raw candidate up to case. -/
theorem expandConjoined_examples_and_dedup :
    expandConjoined (str "Divor PV1+2") = [str "Divor PV1", str "Divor PV2"] ∧
      expandConjoined (str "Sisoneras 1,2 & 3") =
        [str "Sisoneras 1", str "Sisoneras 2", str "Sisoneras 3"] ∧
      ∀ name,
        (expandConjoined name).Pairwise (fun a b => lower a ≠ lower b) ∧
          (expandConjoined name).Sublist (expandOuts name) ∧
          ∀ x ∈ expandOuts name, ∃ y ∈ expandConjoined name, lower y = lower x := by
  refine ⟨by decide, by decide, fun name => ⟨?_, ?_, ?_⟩⟩
  · rw [expandConjoined_eq_dedupCI]
    exact dedupCIGo_pairwise _ []
  · rw [expandConjoined_eq_dedupCI]
    exact dedupCIGo_sublist _ []
  · intro x hx
    rw [expandConjoined_eq_dedupCI]
    rcases dedupCIGo_covers (expandOuts name) [] x hx with hc | h
    · simp [List.contains] at hc
    · exact h

/-! ### C7 — post-processor idempotence -/

theorem expandRow_of_stable {kb : List Str} {r : Row}
    (h : nameCandidates r.project_name kb = [r.project_name]) :
    expandRow kb r = [r] := by
  unfold expandRow
  rw [h]
  simp [List.enum_cons]

theorem flatMap_congr_id {l : List Row} {f : Row → List Row} (h : ∀ r ∈ l, f r = [r]) :
    l.flatMap f = l := by
  induction l with
  | nil => rfl
  | cons a as ih =>
    rw [List.flatMap_cons, h a (List.mem_cons_self _ _),
      ih (fun r hr => h r (List.mem_cons_of_mem a hr))]
    rfl

theorem dedupRowsGo_idem :
    ∀ (l : List Row) (seen : List (Str × Str × Str × Str)),
      dedupRowsGo seen (dedupRowsGo seen l) = dedupRowsGo seen l := by
  intro l
  induction l with
  | nil =>
    intro seen
    rfl
  | cons r rs ih =>
    intro seen
    simp only [dedupRowsGo]
    split
    · exact ih seen
    · rename_i hnot
      simp only [dedupRowsGo]
      rw [if_neg hnot, ih (rowKey r :: seen)]

/-- C7 counterexample: the post-processor is not idempotent — for the row
named `"Divor 1+2_5_MW"` and an empty knowledge base, one pass yields a single
row named `"Divor 1+2"`, while a second pass splits that output into
`"Divor 1"` and `"Divor 2"`. -/
theorem postprocess_not_idempotent_counterexample :
    postprocess (postprocess [unstableRow] []) [] ≠ postprocess [unstableRow] [] := by
  decide

/-- C7 amended: the post-processor is a no-op on its own output whenever every
output row's project name is stable under the per-name pipeline (normalise,
expand, canonical-map); in general a second pass can differ, because
normalisation is not idempotent and splitting can re-fire. -/
theorem postprocess_idempotent_on_stable (rows : List Row) (kb : List Str)
    (h : ∀ r ∈ postprocess rows kb, nameCandidates r.project_name kb = [r.project_name]) :
    postprocess (postprocess rows kb) kb = postprocess rows kb := by
  conv_lhs => rw [postprocess]
  rw [flatMap_congr_id (fun r hr => expandRow_of_stable (h r hr))]
  conv_lhs => rw [postprocess]
  conv_rhs => rw [postprocess]
  exact dedupRowsGo_idem _ []

/-- C7 witness: the amended statement applied at a concrete stable row set. -/
theorem postprocess_idempotent_on_stable_witness :
    (∀ r ∈ postprocess [stableRow] [], nameCandidates r.project_name [] = [r.project_name]) ∧
      postprocess (postprocess [stableRow] []) [] = postprocess [stableRow] [] :=
  ⟨by decide, postprocess_idempotent_on_stable [stableRow] [] (by decide)⟩

/-! ### C10 — post-processor frame conditions -/

theorem mem_of_mem_dedupRowsGo :
    ∀ (l : List Row) (seen : List (Str × Str × Str × Str)) (x : Row),
      x ∈ dedupRowsGo seen l → x ∈ l := by
  intro l
  induction l with
  | nil =>
    intro seen x hx
    simp [dedupRowsGo] at hx
  | cons r rs ih =>
    intro seen x hx
    simp only [dedupRowsGo] at hx
    split at hx
    · exact List.mem_cons_of_mem r (ih seen x hx)
    · rcases List.mem_cons.mp hx with rfl | hx'
      · exact List.mem_cons_self _ _
      · exact List.mem_cons_of_mem r (ih (rowKey r :: seen) x hx')

/-- C10: every row the post-processor emits preserves the summary,
next-actions, owner, category and source-text fields of the input row it came
from; its title is either the input title unchanged or (on split copies after
the first) the input title with the raw name literally replaced by the new
project name. -/
theorem postprocess_preserves_frame (rows : List Row) (kb : List Str) (r2 : Row)
    (h : r2 ∈ postprocess rows kb) :
    ∃ r ∈ rows,
      r2.summary = r.summary ∧ r2.next_actions = r.next_actions ∧ r2.owner = r.owner ∧
        r2.category = r.category ∧ r2.source_text = r.source_text ∧
        (r2.title = r.title ∨
          ∃ t, r.title = some t ∧ r2.title = some (pyReSubLit r.project_name r2.project_name t)) := by
  unfold postprocess at h
  have h2 := mem_of_mem_dedupRowsGo _ _ _ h
  rcases List.mem_flatMap.mp h2 with ⟨r, hr, hmem⟩
  refine ⟨r, hr, ?_⟩
  unfold expandRow at hmem
  rcases List.mem_map.mp hmem with ⟨ip, _hip, rfl⟩
  refine ⟨rfl, rfl, rfl, rfl, rfl, ?_⟩
  by_cases h0 : 0 < ip.1
  · cases ht : r.title with
    | none => simp [h0, ht]
    | some t =>
      by_cases hte : t.isEmpty
      · simp [h0, ht, hte]
      · refine Or.inr ⟨t, rfl, ?_⟩
        simp [h0, hte]
  · simp [h0]

/-- C10 witness: the frame statement applied at a concrete run. -/
theorem postprocess_preserves_frame_witness :
    stableRow ∈ postprocess [stableRow] [] ∧
      ∃ r ∈ [stableRow],
        stableRow.summary = r.summary ∧ stableRow.next_actions = r.next_actions ∧
          stableRow.owner = r.owner ∧ stableRow.category = r.category ∧
          stableRow.source_text = r.source_text ∧
          (stableRow.title = r.title ∨
            ∃ t, r.title = some t ∧
              stableRow.title = some (pyReSubLit r.project_name stableRow.project_name t)) :=
  ⟨by decide, postprocess_preserves_frame [stableRow] [] stableRow (by decide)⟩

/-! ### Extraction-pipeline row provenance -/

theorem buildRow_source_ok (b : Bool) (text : Str) (e : ProjectEntry) :
    (buildRow b text e).source_text = none ∨
      ∃ s, (buildRow b text e).source_text = some s ∧
        ((s = pstrip text ∧ isSubstr s text = true) ∨ 80 ≤ s.length) := by
  cases he : e.source_text with
  | none =>
    left
    simp [buildRow, he]
  | some prov0 =>
    right
    refine ⟨if 80 ≤ (pstrip prov0).length then pstrip prov0 else pstrip text, ?_, ?_⟩
    · simp [buildRow, he]
    · by_cases h80 : 80 ≤ (pstrip prov0).length
      · rw [if_pos h80]
        exact Or.inr h80
      · rw [if_neg h80]
        exact Or.inl ⟨rfl, isSubstr_pstrip text⟩

theorem recoveryFrom_rows (text : Str) (entries : List Json) (rows : List Row)
    (h : recoveryFrom text entries = some rows) :
    ∀ r ∈ rows, ∃ e, r = buildRow false text e := by
  unfold recoveryFrom at h
  split at h
  · simp at h
  · split at h
    · simp at h
    · intro r hr
      rcases Option.some.inj h with rfl
      rcases List.mem_filterMap.mp hr with ⟨j, _hj, hf⟩
      rcases Option.map_eq_some'.mp hf with ⟨e, _he, rfl⟩
      exact ⟨e, rfl⟩

theorem recoveryRows_rows (text c : Str) (rows : List Row)
    (h : recoveryRows text c = some rows) :
    ∀ r ∈ rows, ∃ e, r = buildRow false text e :=
  recoveryFrom_rows text _ rows h

theorem viaCleaning_rows (text : Str) (isLast : Bool) (raw : Json) (rows : List Row)
    (h : viaCleaning text isLast raw = some rows) :
    ∀ r ∈ rows, ∃ e, r = buildRow false text e := by
  unfold viaCleaning at h
  split at h
  · simp at h
  · split at h
    · simp at h
    · split at h
      · rcases Option.some.inj h with rfl
        intro r hr
        rcases List.mem_map.mp hr with ⟨e, _he, rfl⟩
        exact ⟨e, rfl⟩
      · simp at h

theorem processCleaned_rows (w : Bool) (text : Str) (wp : List Str)
    (cm : List (Str × List Str)) (isLast : Bool) (c : Str) (rows : List Row)
    (h : processCleaned w text wp cm isLast c = some rows) :
    ∀ r ∈ rows, ∃ b e, r = buildRow b text e := by
  unfold processCleaned at h
  split at h
  · split at h
    · intro r hr
      rcases recoveryRows_rows _ _ _ h r hr with ⟨e, rfl⟩
      exact ⟨false, e, rfl⟩
    · simp at h
  · split at h
    · simp at h
    · split at h
      · rcases Option.some.inj h with rfl
        intro r hr
        rcases List.mem_map.mp hr with ⟨e, _he, rfl⟩
        exact ⟨true, e, rfl⟩
      · split at h
        · rename_i rows2 hclean
          rcases Option.some.inj h with rfl
          intro r hr
          rcases viaCleaning_rows _ _ _ _ hclean r hr with ⟨e, rfl⟩
          exact ⟨false, e, rfl⟩
        · split at h
          · intro r hr
            rcases recoveryRows_rows _ _ _ h r hr with ⟨e, rfl⟩
            exact ⟨false, e, rfl⟩
          · simp at h
      · simp at h

theorem processContent_rows (w : Bool) (text : Str) (wp : List Str)
    (cm : List (Str × List Str)) (isLast : Bool) (c0 : Str) (rows : List Row)
    (h : processContent w text wp cm isLast c0 = some rows) :
    ∀ r ∈ rows, ∃ b e, r = buildRow b text e :=
  processCleaned_rows w text wp cm isLast _ rows h

theorem runAttempt_rows (callResult : Except PyErr AzureResp) (useFC w : Bool) (text : Str)
    (wp : List Str) (cm : List (Str × List Str)) (isLast : Bool) (rows : List Row)
    (h : runAttempt callResult useFC w text wp cm isLast = some rows) :
    ∀ r ∈ rows, ∃ b e, r = buildRow b text e := by
  unfold runAttempt at h
  split at h
  · simp at h
  · split at h
    · simp at h
    · exact processContent_rows _ _ _ _ _ _ _ h

/-! ### C1 — source_text evidence is trusted without a substring check -/

set_option maxRecDepth 4000 in
/-- C1 counterexample: a run of the section-level extractor in which the model
reports 80 characters of fabricated evidence; the emitted row's `source_text`
is non-null yet not a substring of the section text. -/
theorem extractCore_fabricated_source_counterexample :
    extractCore envOK fabOracle shortSection [] [] =
      Except.ok [{ project_name := str "Alpha", title := none, summary := str "s",
                   next_actions := none, owner := none, category := none,
                   source_text := some fabEvidence }] ∧
      isSubstr fabEvidence shortSection = false := by
  exact ⟨rfl, by decide⟩

/-- C1 amended: a non-null `source_text` of an emitted row is either the
stripped section text — and hence a substring of the section — or a
model-reported evidence string of (stripped) length at least 80, which the
code trusts without any substring check. -/
theorem extractCore_source_substring_or_long (env : Env)
    (oracle : Nat → Except PyErr AzureResp) (text : Str) (wp : List Str)
    (cm : List (Str × List Str)) (rows : List Row)
    (h : extractCore env oracle text wp cm = Except.ok rows) :
    ∀ r ∈ rows,
      r.source_text = none ∨
        ∃ s, r.source_text = some s ∧
          ((s = pstrip text ∧ isSubstr s text = true) ∨ 80 ≤ s.length) := by
  have key : ∀ r ∈ rows, ∃ b e, r = buildRow b text e := by
    unfold extractCore at h
    split at h
    · rename_i rows1 h1
      rcases Except.ok.inj h with rfl
      exact runAttempt_rows _ _ _ _ _ _ _ _ h1
    · split at h
      · rename_i rows2 h2
        rcases Except.ok.inj h with rfl
        exact runAttempt_rows _ _ _ _ _ _ _ _ h2
      · split at h
        · rename_i rows3 h3
          rcases Except.ok.inj h with rfl
          exact runAttempt_rows _ _ _ _ _ _ _ _ h3
        · rcases Except.ok.inj h with rfl
          intro r hr
          cases hr
  intro r hr
  rcases key r hr with ⟨b, e, rfl⟩
  exact buildRow_source_ok b text e

set_option maxRecDepth 4000 in
/-- C1 witness: the amended statement applied at the fabricated-evidence run. -/
theorem extractCore_source_substring_or_long_witness :
    extractCore envOK fabOracle shortSection [] [] =
      Except.ok [{ project_name := str "Alpha", title := none, summary := str "s",
                   next_actions := none, owner := none, category := none,
                   source_text := some fabEvidence }] ∧
      ∀ r ∈ [({ project_name := str "Alpha", title := none, summary := str "s",
                next_actions := none, owner := none, category := none,
                source_text := some fabEvidence } : Row)],
        r.source_text = none ∨
          ∃ s, r.source_text = some s ∧
            ((s = pstrip shortSection ∧ isSubstr s shortSection = true) ∨ 80 ≤ s.length) :=
  ⟨rfl,
    extractCore_source_substring_or_long envOK fabOracle shortSection [] [] _ rfl⟩

/-! ### C8 — unparseable responses degrade to an empty section -/

theorem runAttempt_none (callResult : Except PyErr AzureResp) (useFC w : Bool) (text : Str)
    (wp : List Str) (cm : List (Str × List Str)) (isLast : Bool)
    (h : ∀ resp c, callResult = Except.ok resp → contentOf useFC resp = Except.ok c →
      jsonLoads (pstrip (cleanFences c)) = none ∧
        (isLast = true → recoveryRows text (pstrip (cleanFences c)) = none)) :
    runAttempt callResult useFC w text wp cm isLast = none := by
  cases callResult with
  | error e => rfl
  | ok resp =>
    cases hc : contentOf useFC resp with
    | error e => simp only [runAttempt, hc]
    | ok c =>
      obtain ⟨hp, hrec⟩ := h resp c rfl hc
      simp only [runAttempt, hc, processContent, processCleaned, hp]
      cases isLast with
      | false => rfl
      | true => simpa using hrec rfl

/-- C8: when every strategy's response content fails to parse as JSON and the
final recovery pass yields no valid entries, the section extractor returns the
empty list without raising anything to its caller. -/
theorem extractCore_degrades_to_empty (env : Env) (oracle : Nat → Except PyErr AzureResp)
    (text : Str) (wp : List Str) (cm : List (Str × List Str))
    (h1 : ∀ resp c, azureCall env oracle 1 = Except.ok resp →
      contentOf false resp = Except.ok c → jsonLoads (pstrip (cleanFences c)) = none)
    (h2 : ∀ resp c, azureCall env oracle 2 = Except.ok resp →
      contentOf true resp = Except.ok c → jsonLoads (pstrip (cleanFences c)) = none)
    (h3 : ∀ resp c, azureCall env oracle 3 = Except.ok resp →
      contentOf false resp = Except.ok c →
        jsonLoads (pstrip (cleanFences c)) = none ∧
          recoveryRows text (pstrip (cleanFences c)) = none) :
    extractCore env oracle text wp cm = Except.ok [] := by
  have r1 : runAttempt (azureCall env oracle 1) false env.whitelistEnabled text wp cm false
      = none :=
    runAttempt_none _ _ _ _ _ _ _
      (fun resp c hr hc => ⟨h1 resp c hr hc, fun hf => absurd hf (by simp)⟩)
  have r2 : runAttempt (azureCall env oracle 2) true env.whitelistEnabled text wp cm false
      = none :=
    runAttempt_none _ _ _ _ _ _ _
      (fun resp c hr hc => ⟨h2 resp c hr hc, fun hf => absurd hf (by simp)⟩)
  have r3 : runAttempt (azureCall env oracle 3) false env.whitelistEnabled text wp cm true
      = none :=
    runAttempt_none _ _ _ _ _ _ _
      (fun resp c hr hc => ⟨(h3 resp c hr hc).1, fun _ => (h3 resp c hr hc).2⟩)
  unfold extractCore
  rw [r1, r2, r3]

/-- C8 witness: the theorem applied to a run in which every strategy answers
with unparseable content. -/
theorem extractCore_degrades_to_empty_witness :
    (∀ resp c, azureCall envOK garbageOracle 1 = Except.ok resp →
      contentOf false resp = Except.ok c → jsonLoads (pstrip (cleanFences c)) = none) ∧
      (∀ resp c, azureCall envOK garbageOracle 2 = Except.ok resp →
        contentOf true resp = Except.ok c → jsonLoads (pstrip (cleanFences c)) = none) ∧
      (∀ resp c, azureCall envOK garbageOracle 3 = Except.ok resp →
        contentOf false resp = Except.ok c →
          jsonLoads (pstrip (cleanFences c)) = none ∧
            recoveryRows (str "sec") (pstrip (cleanFences c)) = none) ∧
      extractCore envOK garbageOracle (str "sec") [] [] = Except.ok [] := by
  have g1 : ∀ resp c, azureCall envOK garbageOracle 1 = Except.ok resp →
      contentOf false resp = Except.ok c → jsonLoads (pstrip (cleanFences c)) = none := by
    intro resp c hr hc
    have hr' : Except.ok (respWith (str "not json at all")) = Except.ok resp := hr
    cases hr'
    have hc' : Except.ok (pstrip (str "not json at all")) = Except.ok c := hc
    cases hc'
    rfl
  have g2 : ∀ resp c, azureCall envOK garbageOracle 2 = Except.ok resp →
      contentOf true resp = Except.ok c → jsonLoads (pstrip (cleanFences c)) = none := by
    intro resp c hr hc
    have hr' : Except.ok (respWith (str "not json at all")) = Except.ok resp := hr
    cases hr'
    have hc' : Except.ok (str "not json at all") = Except.ok c := hc
    cases hc'
    rfl
  have g3 : ∀ resp c, azureCall envOK garbageOracle 3 = Except.ok resp →
      contentOf false resp = Except.ok c →
        jsonLoads (pstrip (cleanFences c)) = none ∧
          recoveryRows (str "sec") (pstrip (cleanFences c)) = none := by
    intro resp c hr hc
    have hr' : Except.ok (respWith (str "not json at all")) = Except.ok resp := hr
    cases hr'
    have hc' : Except.ok (pstrip (str "not json at all")) = Except.ok c := hc
    cases hc'
    exact ⟨rfl, rfl⟩
  exact ⟨g1, g2, g3, extractCore_degrades_to_empty envOK garbageOracle (str "sec") [] [] g1 g2 g3⟩

end QE
